import Mathlib

/-!
Verification of the results-aggregation scripts of the roboStatsCPSLO
repository against its natural-language specification.

The Python sources are shallowly embedded: JSON dictionaries become
structures with `Option` fields for possibly-missing keys, Python `int`
becomes `Int`, Python float arithmetic on averages becomes `Rat`
(Python's division of exact integer sums is modelled exactly), and the
network is modelled as an explicit environment (a function from page or
attempt number to a response).
-/

namespace RoboStats

/-- Python's `max(lst)` with a default for the empty list:
`max(lst) if lst else d`.  On a non-empty list `x :: xs`, `List.max?`
is `foldl max x xs` (`List.max?_cons'`), which is Python's `max`. -/
def listMaxD {α : Type} [LinearOrder α] (l : List α) (d : α) : α :=
  l.max?.getD d

theorem listMaxD_mem {α : Type} [LinearOrder α] {l : List α} (d : α)
    (h : l ≠ []) : listMaxD l d ∈ l := by
  rcases l with _ | ⟨x, xs⟩
  · exact absurd rfl h
  · have hs : (x :: xs).max?.isSome :=
      List.isSome_max?_of_mem (List.mem_cons_self x xs)
    rcases Option.isSome_iff_exists.mp hs with ⟨a, ha⟩
    rw [listMaxD, ha, Option.getD_some]
    exact List.max?_mem max_choice ha

theorem le_listMaxD {α : Type} [LinearOrder α] {l : List α} (d : α)
    {a : α} (ha : a ∈ l) : a ≤ listMaxD l d := by
  have hs : l.max?.isSome := List.isSome_max?_of_mem ha
  rcases Option.isSome_iff_exists.mp hs with ⟨b, hb⟩
  rw [listMaxD, hb, Option.getD_some]
  exact (List.max?_le_iff (fun _ _ _ => max_le_iff) hb).mp (le_refl b) a ha

theorem listMaxD_nonneg {l : List Int} (h : ∀ x ∈ l, 0 ≤ x) :
    0 ≤ listMaxD l 0 := by
  rcases l with _ | ⟨x, xs⟩
  · simp [listMaxD]
  · exact h _ (listMaxD_mem 0 (by simp))

/-! ## Event match resolver (src/vexu-data-accessor.py, `get_event_matches`)

The resolver queries the event's flat `/matches` endpoint; on an HTTP 200
response it returns that response's `data` collection.  Only when the flat
request fails (a non-200 status or an exception) does it list the event's
divisions and concatenate each division's match listing.  The network is
modelled as the pre-determined outcome of each request. -/

/-- Outcome of the flat `/events/{id}/matches` request:
`ok data` is an HTTP 200 response whose body carries `data`;
`err` is any non-200 status or a request exception. -/
inductive FlatResp (α : Type) where
  | ok (data : List α)
  | err
deriving DecidableEq

/-- One division as seen by the resolver: `matchList` models the
(paginated, already concatenated) result of `get_division_matches` for
it (the source calls this collection `matches`, a reserved word here). -/
structure Division (α : Type) where
  id : Int
  name : String
  matchList : List α
deriving DecidableEq

/-- The per-event network environment of `get_event_matches`: the flat
endpoint's outcome and the divisions listing (with each division's
matches). -/
structure EventApi (α : Type) where
  flat : FlatResp α
  divisions : List (Division α)
deriving DecidableEq

/-- Shallow embedding of `get_event_matches(event_id, team_id)`
(src/vexu-data-accessor.py lines 126-159).  Approach 1: if the flat
request returns status 200, its `data` list is returned immediately
(the code does not test emptiness).  Approach 2 (only on a failed flat
request): every division's matches are concatenated in order.  Extending
with an empty division result equals skipping it, so the `if
division_matches` guard is dropped. -/
def get_event_matches {α : Type} (api : EventApi α) : List α :=
  match api.flat with
  | .ok data => data
  | .err => api.divisions.foldl (fun acc d => acc ++ d.matchList) []

theorem get_event_matches_err {α : Type} (api : EventApi α)
    (h : api.flat = .err) :
    get_event_matches api = (api.divisions.map Division.matchList).flatten := by
  rw [get_event_matches, h]
  induction api.divisions with
  | nil => rfl
  | cons d ds ih =>
    simp only [List.map_cons, List.flatten_cons]
    rw [List.foldl_cons]
    have : ∀ (acc : List α) (l : List (Division α)),
        l.foldl (fun acc d => acc ++ d.matchList) acc
          = acc ++ (l.map Division.matchList).flatten := by
      intro acc l
      induction l generalizing acc with
      | nil => simp
      | cons e es ihe => simp [List.foldl_cons, ihe, List.append_assoc]
    simp [this]

/-- Concrete event used to test the resolver on the spec's scenario: the
flat endpoint answers 200 with an empty collection, and the event has two
divisions holding 5 and 7 matches for the team. -/
def apiScenarioC1 : EventApi Int :=
  { flat := .ok []
  , divisions :=
      [ ⟨1, "Division A", [1, 2, 3, 4, 5]⟩
      , ⟨2, "Division B", [6, 7, 8, 9, 10, 11, 12]⟩ ] }

/-- Same divisions, but the flat request fails (non-200 or exception):
this is the only situation in which the code consults divisions. -/
def apiScenarioC1' : EventApi Int :=
  { flat := .err
  , divisions := apiScenarioC1.divisions }

/-! ## Match records and score classification

Shared data model for `extract_match_scores`
(src/final-robotevents-skills-calculator.py lines 167-203) and
`extract_scores_from_matches` (src/vexu-data-accessor-updated.py lines
284-321).  A JSON match dictionary becomes a structure whose possibly
missing keys are `Option`s: `match.get("round", 0)` is
`round?.getD 0`, a missing `"alliances"` key is `alliances? = none`,
and an alliance's `alliance.get("score", 0)` is `score?.getD 0`.
A member team's `team.get("id")` is an `Option Int` (`None` when the
`"id"` key is absent). -/

structure Alliance where
  teams : List (Option Int)
  score? : Option Int
deriving DecidableEq

structure MatchRecord where
  alliances? : Option (List Alliance)
  round? : Option Int
deriving DecidableEq

/-- Whether the alliance's member listing contains the team id, i.e. the
inner loop `for team in alliance.get("teams", []): if team.get("id") ==
team_id`. -/
def allianceHasTeam (teamId : Int) (a : Alliance) : Bool :=
  a.teams.any (fun t => t == some teamId)

/-- The first alliance containing the team.  The source records the index
of that alliance and then reads `match["alliances"][team_alliance]`;
returning the alliance found is the same lookup. -/
def findTeamAlliance (alliances : List Alliance) (teamId : Int) :
    Option Alliance :=
  alliances.find? (allianceHasTeam teamId)

/-- Shallow embedding of `extract_match_scores(matches, team_id)`
(src/final-robotevents-skills-calculator.py lines 167-203).  A match
whose alliances do not contain the team is skipped; otherwise the located
alliance's score (default 0) goes to the qualification bucket when
`match.get("round", 0) == 1` and to the elimination bucket otherwise. -/
def extract_match_scores (teamId : Int) :
    List MatchRecord → List Int × List Int
  | [] => ([], [])
  | m :: ms =>
    let rest := extract_match_scores teamId ms
    match findTeamAlliance (m.alliances?.getD []) teamId with
    | none => rest
    | some a =>
      let score := a.score?.getD 0
      if m.round?.getD 0 = 1 then (score :: rest.1, rest.2)
      else (rest.1, score :: rest.2)

/-- Shallow embedding of `extract_scores_from_matches(matches, team_id)`
(src/vexu-data-accessor-updated.py lines 284-321).  A match lacking an
`"alliances"` key or with fewer than two alliances is skipped; the
located alliance's score goes to the qualification bucket when the round
is 1 or 2, to the elimination bucket when the round is greater than 2,
and nowhere otherwise (round 0 or negative). -/
def extract_scores_from_matches (teamId : Int) :
    List MatchRecord → List Int × List Int
  | [] => ([], [])
  | m :: ms =>
    let rest := extract_scores_from_matches teamId ms
    match m.alliances? with
    | none => rest
    | some alliances =>
      if alliances.length < 2 then rest
      else
        match findTeamAlliance alliances teamId with
        | none => rest
        | some a =>
          let score := a.score?.getD 0
          let round := m.round?.getD 0
          if round = 1 ∨ round = 2 then (score :: rest.1, rest.2)
          else if round > 2 then (rest.1, score :: rest.2)
          else rest

/-- The team was located in some alliance of the match, variant A's view
(`match.get("alliances", [])`). -/
def locatedA (teamId : Int) (m : MatchRecord) : Bool :=
  (findTeamAlliance (m.alliances?.getD []) teamId).isSome

/-- The located alliance's score with the source's default
(`.get("score", 0)`); 0 when the team is not located (unused then). -/
def scoreOf (teamId : Int) (m : MatchRecord) : Int :=
  match findTeamAlliance (m.alliances?.getD []) teamId with
  | some a => a.score?.getD 0
  | none => 0

/-- The round with the source's default (`match.get("round", 0)`). -/
def roundOf (m : MatchRecord) : Int :=
  m.round?.getD 0

/-- Variant B's well-formedness guard: an `"alliances"` key with at least
two alliances. -/
def wellFormedB (m : MatchRecord) : Bool :=
  match m.alliances? with
  | none => false
  | some alliances => !(alliances.length < 2)

theorem extract_match_scores_spec (tid : Int) (ms : List MatchRecord) :
    extract_match_scores tid ms =
      ((ms.filter fun m => locatedA tid m && (roundOf m == 1)).map (scoreOf tid),
       (ms.filter fun m => locatedA tid m && !(roundOf m == 1)).map (scoreOf tid)) := by
  induction ms with
  | nil => rfl
  | cons m ms ih =>
    cases hf : findTeamAlliance (m.alliances?.getD []) tid with
    | none => simp [extract_match_scores, hf, locatedA, ih]
    | some a =>
      by_cases hr : m.round?.getD 0 = 1 <;>
        simp [extract_match_scores, hf, locatedA, roundOf, scoreOf, hr, ih]

theorem extract_scores_from_matches_spec (tid : Int) (ms : List MatchRecord) :
    extract_scores_from_matches tid ms =
      ((ms.filter fun m => wellFormedB m && locatedA tid m
          && (roundOf m == 1 || roundOf m == 2)).map (scoreOf tid),
       (ms.filter fun m => wellFormedB m && locatedA tid m
          && decide (2 < roundOf m)).map (scoreOf tid)) := by
  induction ms with
  | nil => rfl
  | cons m ms ih =>
    cases hal : m.alliances? with
    | none => simp [extract_scores_from_matches, hal, wellFormedB, ih]
    | some alliances =>
      by_cases hlen : alliances.length < 2
      · simp [extract_scores_from_matches, hal, wellFormedB, hlen, ih]
      · cases hf : findTeamAlliance alliances tid with
        | none =>
          simp [extract_scores_from_matches, hal, wellFormedB, hlen,
            locatedA, hf, ih]
        | some a =>
          by_cases h12 : m.round?.getD 0 = 1 ∨ m.round?.getD 0 = 2
          · simp [extract_scores_from_matches, hal, wellFormedB, hlen,
              locatedA, hf, roundOf, scoreOf, h12, ih]
            rcases h12 with h | h <;> simp [h]
          · by_cases h2 : 2 < m.round?.getD 0 <;>
              simp [extract_scores_from_matches, hal, wellFormedB, hlen,
                locatedA, hf, roundOf, scoreOf, h12, h2, ih]

theorem length_filter_or_disjoint {α : Type} (p q1 q2 : α → Bool)
    (h : ∀ a, q1 a = true → q2 a = false) (l : List α) :
    (l.filter fun a => p a && q1 a).length
      + (l.filter fun a => p a && q2 a).length
      = (l.filter fun a => p a && (q1 a || q2 a)).length := by
  induction l with
  | nil => rfl
  | cons x xs ih =>
    simp only [List.filter_cons]
    by_cases hp : p x
    · by_cases h1 : q1 x
      · have h2 := h x h1
        simp [hp, h1, h2]
        omega
      · by_cases h2 : q2 x <;> simp [hp, h1, h2] <;> omega
    · simp [hp]
      omega

/-- C1, counterexample.  On the claim's own scenario — the flat endpoint
responds 200 with an empty collection while the event's two divisions
hold 5 and 7 matches for the team — the resolver returns the empty
flat collection (0 matches), not the divisions' 12: the code falls back
to divisions only when the flat request fails, never on emptiness. -/
theorem get_event_matches_empty_flat_cex :
    get_event_matches apiScenarioC1 = ([] : List Int)
      ∧ apiScenarioC1.flat = FlatResp.ok []
      ∧ apiScenarioC1.divisions.map (fun d => d.matchList.length) = [5, 7] :=
  ⟨rfl, rfl, rfl⟩

/-- C1, amended.  The resolver returns the flat listing whenever the flat
request succeeds with HTTP 200 — even when that collection is empty; it
lists divisions and concatenates their match listings only when the flat
request fails (non-200 status or exception).  In that failure case, an
event with 2 divisions containing 5 and 7 matches yields 12 matches. -/
theorem get_event_matches_strategy :
    (∀ (api : EventApi Int) (data : List Int),
        api.flat = FlatResp.ok data → get_event_matches api = data)
      ∧ (∀ api : EventApi Int, api.flat = FlatResp.err →
          get_event_matches api
            = (api.divisions.map Division.matchList).flatten)
      ∧ (get_event_matches apiScenarioC1').length = 12 := by
  refine ⟨fun api data h => ?_, fun api h => get_event_matches_err api h, rfl⟩
  rw [get_event_matches, h]

/-- C1 witness: the amended theorem applied to a concrete event whose
flat request succeeds. -/
theorem get_event_matches_strategy_witness :
    get_event_matches { flat := FlatResp.ok ([3] : List Int), divisions := [] }
      = [3] :=
  get_event_matches_strategy.1
    { flat := FlatResp.ok ([3] : List Int), divisions := [] } [3] rfl

/-- A well-formed match with the team (id 5) in exactly the first
alliance, alliance score 7, and round number 0 (as a missing `"round"`
key also yields, via `match.get("round", 0)`). -/
def matchRound0 : MatchRecord :=
  { alliances? := some [⟨[some 5], some 7⟩, ⟨[some 9], some 3⟩]
  , round? := some 0 }

/-- C2, counterexample.  For a match with round number 0 in which team 5
appears in exactly one alliance: `extract_match_scores` places its score
in the elimination bucket although the round is not greater than 1, and
`extract_scores_from_matches` places it in neither bucket, so the two
buckets' total length (0) is not the input length (1) minus the skipped
malformed matches (0). -/
theorem extract_scores_round0_cex :
    extract_match_scores 5 [matchRound0] = ([], [7])
      ∧ extract_scores_from_matches 5 [matchRound0] = ([], [])
      ∧ roundOf matchRound0 = 0 := by
  refine ⟨by decide, by decide, rfl⟩

/-- C2, amended.  Score classification, for the first alliance containing
the team: under the round==1 policy (`extract_match_scores`) the score
goes to the qualification bucket iff the round number equals 1 and to the
elimination bucket iff it differs from 1 (including round 0 from a
missing round key), so the buckets' total length equals the number of
matches in which the team was located; under the alternate policy
(`extract_scores_from_matches`) the score goes to qualification iff the
round is 1 or 2 and to elimination iff it is greater than 2, matches with
round below 1 land in neither bucket, and the total length equals the
number of well-formed matches (two alliances present) in which the team
was located with round at least 1. -/
theorem extract_scores_classification (tid : Int) (ms : List MatchRecord) :
    extract_match_scores tid ms =
      ((ms.filter fun m => locatedA tid m && (roundOf m == 1)).map
        (scoreOf tid),
       (ms.filter fun m => locatedA tid m && !(roundOf m == 1)).map
        (scoreOf tid))
    ∧ (extract_match_scores tid ms).1.length
        + (extract_match_scores tid ms).2.length
        = (ms.filter (locatedA tid)).length
    ∧ extract_scores_from_matches tid ms =
        ((ms.filter fun m => wellFormedB m && locatedA tid m
            && (roundOf m == 1 || roundOf m == 2)).map (scoreOf tid),
         (ms.filter fun m => wellFormedB m && locatedA tid m
            && decide (2 < roundOf m)).map (scoreOf tid))
    ∧ (extract_scores_from_matches tid ms).1.length
        + (extract_scores_from_matches tid ms).2.length
        = (ms.filter fun m => wellFormedB m && locatedA tid m
            && decide (1 ≤ roundOf m)).length := by
  refine ⟨extract_match_scores_spec tid ms, ?_,
    extract_scores_from_matches_spec tid ms, ?_⟩
  · rw [extract_match_scores_spec]
    simp only [List.length_map]
    have := length_filter_or_disjoint (locatedA tid)
      (fun m => roundOf m == 1) (fun m => !(roundOf m == 1))
      (by intro a h; simp_all) ms
    rw [this]
    congr 1
    apply List.filter_congr
    intro m _
    by_cases h : roundOf m = 1 <;> simp [h]
  · rw [extract_scores_from_matches_spec]
    simp only [List.length_map]
    have hdisj : ∀ m : MatchRecord,
        (roundOf m == 1 || roundOf m == 2) = true →
        decide (2 < roundOf m) = false := by
      intro m h
      simp only [Bool.or_eq_true, beq_iff_eq] at h
      simp only [decide_eq_false_iff_not, not_lt]
      rcases h with h | h <;> omega
    have := length_filter_or_disjoint
      (fun m => wellFormedB m && locatedA tid m)
      (fun m => roundOf m == 1 || roundOf m == 2)
      (fun m => decide (2 < roundOf m)) hdisj ms
    rw [this]
    congr 1
    apply List.filter_congr
    intro m _
    by_cases h1 : wellFormedB m <;> by_cases hl : locatedA tid m <;>
      simp only [h1, hl, Bool.true_and, Bool.false_and, Bool.and_true,
        Bool.and_false, Bool.true_or, Bool.false_or]
    rw [Bool.eq_iff_iff]
    simp only [Bool.or_eq_true, beq_iff_eq, decide_eq_true_eq]
    omega

/-! ## Skills records and skills classification

A skills record's `"type"` field arrives either as a bare string
(`"driver"`/`"programming"`) or as a nested object with an integer
`"id"` code (1 = driver, 2 = programming); the field may also be absent.
The per-record score is `skill.get("score", 0)`. -/

/-- The wire forms of the `"type"` field: a bare string tag, or a nested
object whose `"id"` key may be missing (`skill_type.get("id", 0)`). -/
inductive SkillTypeField where
  | str (tag : String)
  | obj (id? : Option Int)
deriving DecidableEq

structure SkillsRecord where
  type? : Option SkillTypeField
  score? : Option Int
deriving DecidableEq

/-- Shallow embedding of the skills loop of `process_team_data`
(src/final-robotevents-skills-calculator.py lines 276-288): only the
bare-string forms `"driver"` and `"programming"` are routed; every other
`"type"` value — including a nested object — fails both string
comparisons and the record is skipped. -/
def classifySkillsStr : List SkillsRecord → List Int × List Int
  | [] => ([], [])
  | r :: rs =>
    let rest := classifySkillsStr rs
    let score := r.score?.getD 0
    match r.type? with
    | some (.str "driver") => (score :: rest.1, rest.2)
    | some (.str "programming") => (rest.1, score :: rest.2)
    | _ => rest

/-- Shallow embedding of the routing loop of `extract_combined_skills`
(src/skills-focused-updater.py lines 205-228): a record whose `"type"`
is not a dict is skipped (`if not isinstance(skill_type, dict):
continue`); otherwise `type_id = skill_type.get("id", 0)` routes 1 to
driver and 2 to programming, anything else is skipped. -/
def classifySkillsObj : List SkillsRecord → List Int × List Int
  | [] => ([], [])
  | r :: rs =>
    let rest := classifySkillsObj rs
    let score := r.score?.getD 0
    match r.type? with
    | some (.obj id?) =>
      if id?.getD 0 = 1 then (score :: rest.1, rest.2)
      else if id?.getD 0 = 2 then (rest.1, score :: rest.2)
      else rest
    | _ => rest

/-- The record's `"type"` is the bare string `tag`. -/
def hasStrType (tag : String) (r : SkillsRecord) : Bool :=
  r.type? == some (.str tag)

/-- The record's `"type"` is a nested object whose id code (default 0)
is `c`. -/
def hasObjType (c : Int) (r : SkillsRecord) : Bool :=
  match r.type? with
  | some (.obj id?) => id?.getD 0 == c
  | _ => false

/-- The record's score with the source's default (`.get("score", 0)`). -/
def skillScore (r : SkillsRecord) : Int :=
  r.score?.getD 0

theorem classifySkillsStr_spec (rs : List SkillsRecord) :
    classifySkillsStr rs =
      ((rs.filter (hasStrType "driver")).map skillScore,
       (rs.filter (hasStrType "programming")).map skillScore) := by
  induction rs with
  | nil => rfl
  | cons r rs ih =>
    rcases r with ⟨t, s⟩
    match t with
    | none => simp [classifySkillsStr, hasStrType, ih]
    | some (.obj c) => simp [classifySkillsStr, hasStrType, ih]
    | some (.str tag) =>
      by_cases hd : tag = "driver"
      · subst hd
        simp [classifySkillsStr, hasStrType, skillScore, ih]
      · by_cases hp : tag = "programming"
        · subst hp
          simp [classifySkillsStr, hasStrType, skillScore, ih]
        · rw [show classifySkillsStr (⟨some (.str tag), s⟩ :: rs)
              = classifySkillsStr rs by
            rw [classifySkillsStr]
            split
            next h => exact absurd (by injection h with h; injection h) hd
            next h => exact absurd (by injection h with h; injection h) hp
            next => rfl]
          simp [hasStrType, hd, hp, ih]

theorem classifySkillsObj_spec (rs : List SkillsRecord) :
    classifySkillsObj rs =
      ((rs.filter (hasObjType 1)).map skillScore,
       (rs.filter (hasObjType 2)).map skillScore) := by
  induction rs with
  | nil => rfl
  | cons r rs ih =>
    rcases r with ⟨t, s⟩
    match t with
    | none => simp [classifySkillsObj, hasObjType, ih]
    | some (.str tag) => simp [classifySkillsObj, hasObjType, ih]
    | some (.obj c) =>
      by_cases h1 : c.getD 0 = 1
      · simp [classifySkillsObj, hasObjType, skillScore, h1, ih]
      · by_cases h2 : c.getD 0 = 2
        · simp [classifySkillsObj, hasObjType, skillScore, h1, h2, ih]
        · simp [classifySkillsObj, hasObjType, skillScore, h1, h2, ih]

/-- A driver run given in the nested-object form (type code 1, score
30). -/
def skillObjDriver : SkillsRecord :=
  { type? := some (.obj (some 1)), score? := some 30 }

/-- A driver run given in the bare-string form (tag "driver", score
30). -/
def skillStrDriver : SkillsRecord :=
  { type? := some (.str "driver"), score? := some 30 }

/-- C3, counterexample.  Neither classifier accepts both wire forms: the
string-form classifier (final-robotevents-skills-calculator.py) skips a
driver run whose type is the nested object with code 1, and the
object-form classifier (skills-focused-updater.py) skips a driver run
whose type is the bare string "driver"; in both cases the driver bucket
stays empty instead of receiving the score 30. -/
theorem classifySkills_one_form_cex :
    classifySkillsStr [skillObjDriver] = ([], [])
      ∧ classifySkillsObj [skillStrDriver] = ([], []) := by
  refine ⟨by decide, by decide⟩

/-- C3, amended.  Each of the two skills-classifier variants accepts
exactly one wire form of the type field.  The string-form classifier
routes the scores of records tagged with the bare strings "driver" and
"programming" into the corresponding buckets, in order, and skips every
other record — in particular every nested-object-typed record.  The
object-form classifier routes the scores of records whose nested object
carries code 1 (driver) or 2 (programming) and skips every other record —
in particular every bare-string-typed record. -/
theorem classifySkills_by_form (rs : List SkillsRecord) :
    classifySkillsStr rs =
      ((rs.filter (hasStrType "driver")).map skillScore,
       (rs.filter (hasStrType "programming")).map skillScore)
    ∧ classifySkillsObj rs =
      ((rs.filter (hasObjType 1)).map skillScore,
       (rs.filter (hasObjType 2)).map skillScore) :=
  ⟨classifySkillsStr_spec rs, classifySkillsObj_spec rs⟩

/-! ## Per-event combined skill score

From `process_team_data` (src/final-robotevents-skills-calculator.py
lines 296-303): `best_driver = max(driver_scores) if driver_scores else
0`, likewise for programming; a combined entry `best_driver +
best_programming` is appended only when `best_driver > 0 or
best_programming > 0`. -/

/-- Shallow embedding of the combined-score derivation; `some` models
appending an entry to `combined_skills`, `none` models recording
nothing. -/
def combined_for_event (driver programming : List Int) : Option Int :=
  let best_driver := listMaxD driver 0
  let best_programming := listMaxD programming 0
  if best_driver > 0 ∨ best_programming > 0 then
    some (best_driver + best_programming)
  else none

/-- C4.  For non-negative scores (competition scores, per the data
model): the combined score equals the maximum driver score (default 0)
plus the maximum programming score (default 0), and an entry is recorded
iff the two maxima are not both zero.  In particular driver scores
[40, 55] with programming scores [0] yield 55, and an event with zero
driver and zero programming scores records no entry. -/
theorem combined_for_event_spec (driver programming : List Int)
    (hd : ∀ x ∈ driver, 0 ≤ x) (hp : ∀ x ∈ programming, 0 ≤ x) :
    ((combined_for_event driver programming).isSome ↔
      ¬(listMaxD driver 0 = 0 ∧ listMaxD programming 0 = 0))
    ∧ (∀ c, combined_for_event driver programming = some c →
        c = listMaxD driver 0 + listMaxD programming 0)
    ∧ combined_for_event [40, 55] [0] = some 55
    ∧ combined_for_event [] [] = none
    ∧ combined_for_event [0] [0] = none := by
  have hd0 : 0 ≤ listMaxD driver 0 := listMaxD_nonneg hd
  have hp0 : 0 ≤ listMaxD programming 0 := listMaxD_nonneg hp
  refine ⟨?_, ?_, by decide, by decide, by decide⟩
  · rw [combined_for_event]
    by_cases h : listMaxD driver 0 > 0 ∨ listMaxD programming 0 > 0 <;>
      simp [h] <;> omega
  · intro c hc
    rw [combined_for_event] at hc
    split at hc
    · exact (Option.some_inj.mp hc).symm
    · exact absurd hc (by simp)

/-- C4 witness: the theorem applied to the spec's scenario lists, whose
scores are non-negative. -/
theorem combined_for_event_spec_witness :
    combined_for_event [40, 55] [0] = some 55 :=
  (combined_for_event_spec [40, 55] [0] (by decide) (by decide)).2.2.1

/-! ## Team statistics finalization

From `TeamData.calculate_stats`
(src/final-robotevents-skills-calculator.py lines 37-47) and the inline
copy in `process_team_data` (src/vexu-data-accessor-updated.py lines
408-417): each statistic starts at 0 and is overwritten only when its
score list is non-empty, by `sum(scores)/len(scores)` (and
`max(qual_scores)` for the best qualification score).  Python's float
division of the exact sums is modelled with exact rationals. -/

structure TeamStats where
  qual_avg : Rat
  best_qual : Rat
  elims_avg : Rat
  skill_avg : Rat
deriving DecidableEq

/-- Shallow embedding of `calculate_stats` on the three accumulated
score lists. -/
def calculate_stats (qual_scores elims_scores combined_skills : List Rat) :
    TeamStats :=
  { qual_avg :=
      if qual_scores = [] then 0 else qual_scores.sum / qual_scores.length
  , best_qual := if qual_scores = [] then 0 else listMaxD qual_scores 0
  , elims_avg :=
      if elims_scores = [] then 0
      else elims_scores.sum / elims_scores.length
  , skill_avg :=
      if combined_skills = [] then 0
      else combined_skills.sum / combined_skills.length }

/-- C5.  Finalization computes, for non-empty score lists, the
qualification average as sum divided by count and the best qualification
score as a member of the list that bounds every member (the maximum);
for empty lists both default to 0; the elimination and combined-skill
averages behave likewise.  The scenario: qualification scores
[10, 20, 30] with no elimination scores give qualification average 20,
best qualification 30, and elimination average 0. -/
theorem calculate_stats_spec (qual elims combined : List Rat) :
    (qual ≠ [] →
      (calculate_stats qual elims combined).qual_avg
          = qual.sum / qual.length
        ∧ (calculate_stats qual elims combined).best_qual ∈ qual
        ∧ ∀ x ∈ qual, x ≤ (calculate_stats qual elims combined).best_qual)
    ∧ (qual = [] →
        (calculate_stats qual elims combined).qual_avg = 0
          ∧ (calculate_stats qual elims combined).best_qual = 0)
    ∧ (elims ≠ [] →
        (calculate_stats qual elims combined).elims_avg
          = elims.sum / elims.length)
    ∧ (elims = [] → (calculate_stats qual elims combined).elims_avg = 0)
    ∧ (combined ≠ [] →
        (calculate_stats qual elims combined).skill_avg
          = combined.sum / combined.length)
    ∧ (combined = [] →
        (calculate_stats qual elims combined).skill_avg = 0)
    ∧ (calculate_stats [10, 20, 30] [] []).qual_avg = 20
    ∧ (calculate_stats [10, 20, 30] [] []).best_qual = 30
    ∧ (calculate_stats [10, 20, 30] [] []).elims_avg = 0 := by
  refine ⟨fun h => ⟨by simp [calculate_stats, h], ?_, ?_⟩,
    fun h => by simp [calculate_stats, h],
    fun h => by simp [calculate_stats, h],
    fun h => by simp [calculate_stats, h],
    fun h => by simp [calculate_stats, h],
    fun h => by simp [calculate_stats, h],
    by simp only [calculate_stats]; rw [if_neg (by simp)]; norm_num,
    by simp only [calculate_stats]; rw [if_neg (by simp)]
       norm_num [listMaxD, List.max?_cons, max_def],
    by simp only [calculate_stats]; simp⟩
  · simp only [calculate_stats, if_neg h]
    exact listMaxD_mem 0 h
  · intro x hx
    simp only [calculate_stats, if_neg h]
    exact le_listMaxD 0 hx

/-- C5 witness: the theorem applied to the spec's scenario lists,
discharging the non-emptiness hypothesis there. -/
theorem calculate_stats_spec_witness :
    (calculate_stats [10, 20, 30] [] []).qual_avg
      = ([10, 20, 30] : List Rat).sum / ([10, 20, 30] : List Rat).length :=
  ((calculate_stats_spec [10, 20, 30] [] []).1 (by decide)).1

/-- A match whose located alliance (the team's) carries no `"score"`
key: `teamId` is the single member of the first alliance, `score?` is
`none`, and the round is 1. -/
def matchNoScore (teamId : Int) : MatchRecord :=
  { alliances? := some [⟨[some teamId], none⟩], round? := some 1 }

/-- A driver-tagged skills record carrying no `"score"` key. -/
def skillNoScore : SkillsRecord :=
  { type? := some (.str "driver"), score? := none }

/-- C10.  A located alliance without a `"score"` field contributes the
default score 0 to the corresponding bucket (here qualification, round
1), and a driver-tagged skills record without a `"score"` field
contributes 0 to the driver bucket — neither record is skipped, so both
lengthen their bucket; and prepending a 0 to a non-empty bucket of
non-negative scores never increases the finalized average. -/
theorem missing_score_defaults_to_zero (teamId : Int)
    (ms : List MatchRecord) (rs : List SkillsRecord) (S : List Rat)
    (hS : ∀ x ∈ S, 0 ≤ x) (hne : S ≠ []) :
    extract_match_scores teamId (matchNoScore teamId :: ms)
        = (0 :: (extract_match_scores teamId ms).1,
           (extract_match_scores teamId ms).2)
      ∧ classifySkillsStr (skillNoScore :: rs)
          = (0 :: (classifySkillsStr rs).1, (classifySkillsStr rs).2)
      ∧ (calculate_stats (0 :: S) [] []).qual_avg
          ≤ (calculate_stats S [] []).qual_avg := by
  refine ⟨?_, rfl, ?_⟩
  · simp [extract_match_scores, matchNoScore, findTeamAlliance,
      allianceHasTeam, List.find?]
  · have hlen : 0 < (S.length : Rat) := by
      have : 0 < S.length := List.length_pos.mpr hne
      exact_mod_cast this
    have hsum : 0 ≤ S.sum := List.sum_nonneg hS
    simp only [calculate_stats, if_neg (List.cons_ne_nil 0 S), if_neg hne]
    rw [List.sum_cons, List.length_cons, zero_add]
    rw [div_le_div_iff₀ (by push_cast; linarith) hlen]
    push_cast
    nlinarith

/-- C10 witness: the theorem applied at concrete inputs, discharging the
non-negativity and non-emptiness hypotheses at `S = [10]`. -/
theorem missing_score_defaults_to_zero_witness :
    (calculate_stats (0 :: [10]) [] []).qual_avg
      ≤ (calculate_stats [10] [] []).qual_avg :=
  (missing_score_defaults_to_zero 5 [] [] [10]
    (by intro x hx; simp at hx; simp [hx]) (by simp)).2.2

/-! ## Best-event tracking

From `process_team_data` (src/vexu-data-accessor-updated.py lines
367-372, identically src/final-robotevents-skills-calculator.py lines
256-260): per event, `if qual_scores: event_best = max(qual_scores); if
event_best > team.best_event_score: team.best_event_score = event_best;
team.best_event_name = event_name`.  The running state starts at
`("", 0)`.  An event is modelled as its name paired with the
qualification scores extracted for it. -/

structure BestEvent where
  name : String
  score : Int
deriving DecidableEq

/-- One event's update of the running best-event state. -/
def updateBest (b : BestEvent) (e : String × List Int) : BestEvent :=
  match e.2 with
  | [] => b
  | s :: ss =>
    let event_best := listMaxD (s :: ss) 0
    if event_best > b.score then ⟨e.1, event_best⟩ else b

/-- The best-event state after processing all events in listing order. -/
def processBest (events : List (String × List Int)) : BestEvent :=
  events.foldl updateBest ⟨"", 0⟩

theorem updateBest_def (b : BestEvent) (e : String × List Int) :
    updateBest b e =
      if e.2 = [] then b
      else if listMaxD e.2 0 > b.score then ⟨e.1, listMaxD e.2 0⟩
      else b := by
  rcases e with ⟨n, _ | ⟨s, ss⟩⟩ <;> simp [updateBest]

/-- The score component of the running state, as its own fold. -/
def updateBestScore (s : Int) (e : String × List Int) : Int :=
  if e.2 = [] then s else if listMaxD e.2 0 > s then listMaxD e.2 0 else s

theorem processBest_score_fold (l : List (String × List Int))
    (b : BestEvent) :
    (l.foldl updateBest b).score = l.foldl updateBestScore b.score := by
  induction l generalizing b with
  | nil => rfl
  | cons e es ih =>
    rw [List.foldl_cons, List.foldl_cons, ih, updateBest_def,
      updateBestScore]
    split_ifs <;> rfl

theorem updateBest_comm_of_ne_best (x y : String × List Int)
    (hne : x.2 ≠ [] → y.2 ≠ [] → listMaxD x.2 0 ≠ listMaxD y.2 0)
    (z : BestEvent) :
    updateBest (updateBest z x) y = updateBest (updateBest z y) x := by
  simp only [updateBest_def, apply_ite BestEvent.score]
  by_cases hx : x.2 = [] <;> by_cases hy : y.2 = [] <;>
    simp only [hx, hy, if_true, if_false, ite_true, ite_false]
  have h := hne hx hy
  split_ifs <;> first | rfl | (exfalso; omega)

theorem updateBestScore_comm (x y : String × List Int) (s : Int) :
    updateBestScore (updateBestScore s x) y
      = updateBestScore (updateBestScore s y) x := by
  simp only [updateBestScore]
  split_ifs <;> omega

/-- The two events used to refute order-independence of the best-event
name: equal best qualification scores. -/
def eventsAB : List (String × List Int) := [("A", [50]), ("B", [50])]

def eventsBA : List (String × List Int) := [("B", [50]), ("A", [50])]

/-- C6, counterexample.  Permuting the event processing order does not
always preserve the best-event name: with two events "A" and "B" whose
best qualification scores are both 50, processing "A" first names "A"
and processing "B" first names "B" — the strict-greater update keeps the
earlier event on ties, so the claimed order-independence of the
name/score pair fails. -/
theorem processBest_order_dependent_cex :
    eventsAB.Perm eventsBA
      ∧ processBest eventsAB ≠ processBest eventsBA := by
  refine ⟨by decide, by decide⟩

/-- C6, amended.  An event with at least one qualification score
supersedes the running best-event state iff its best qualification score
is strictly greater than the running best score.  The final best-event
score is the same for every permutation of the event processing order,
and when the events' best qualification scores are pairwise distinct the
whole final state (name and score) is permutation-independent; on ties
the earlier-processed event keeps the name. -/
theorem processBest_spec :
    (∀ (b : BestEvent) (name : String) (qs : List Int), qs ≠ [] →
      (listMaxD qs 0 > b.score →
        updateBest b (name, qs) = ⟨name, listMaxD qs 0⟩)
      ∧ (¬listMaxD qs 0 > b.score → updateBest b (name, qs) = b))
    ∧ (∀ l₁ l₂ : List (String × List Int), l₁.Perm l₂ →
        (processBest l₁).score = (processBest l₂).score)
    ∧ (∀ l₁ l₂ : List (String × List Int), l₁.Perm l₂ →
        (∀ x ∈ l₁, ∀ y ∈ l₁, x ≠ y → x.2 ≠ [] → y.2 ≠ [] →
          listMaxD x.2 0 ≠ listMaxD y.2 0) →
        processBest l₁ = processBest l₂) := by
  refine ⟨?_, ?_, ?_⟩
  · intro b name qs hqs
    constructor <;> intro h <;> rw [updateBest_def] <;>
      simp only [hqs, if_false, ite_false, h, if_true, ite_true]
  · intro l₁ l₂ hp
    rw [processBest, processBest, processBest_score_fold,
      processBest_score_fold]
    exact hp.foldl_eq' (fun x _ y _ z => updateBestScore_comm x y z) 0
  · intro l₁ l₂ hp hdist
    rw [processBest, processBest]
    refine hp.foldl_eq' (fun x hx y hy z => ?_) (⟨"", 0⟩ : BestEvent)
    by_cases hxy : x = y
    · subst hxy; rfl
    · exact updateBest_comm_of_ne_best x y
        (fun h1 h2 => hdist x hx y hy hxy h1 h2) z

/-- C6 witness: the amended theorem applied to two concrete permuted
event lists with pairwise distinct best scores, discharging the
permutation and distinctness hypotheses. -/
theorem processBest_spec_witness :
    processBest [("A", [50]), ("B", [60])]
      = processBest [("B", [60]), ("A", [50])] :=
  processBest_spec.2.2 [("A", [50]), ("B", [60])] [("B", [60]), ("A", [50])]
    (by decide) (by decide)

/-! ## Paginated fetching and retries

The network is an explicit environment.  For the pagination loops of
src/final-robotevents-skills-calculator.py, `env page` is the outcome of
requesting that page: `ok data lastPage` is a parsed 200 body (its
`data` array and `meta.last_page`), `err` is any raised error
(`raise_for_status` on a non-200 such as 404, or any other exception).
For `api_request` (src/vexu-data-accessor-updated.py lines 42-76),
`env attempt` is the outcome of the attempt-th request. -/

inductive PageResp where
  | ok (data : List Int) (lastPage : Nat)
  | err
deriving DecidableEq

/-- The `while True` loop of `get_team_events`
(src/final-robotevents-skills-calculator.py lines 75-100): request the
page, extend `events`, stop when `page >= last_page`; a raised error is
caught and the events collected so far are returned.  `fuel` bounds the
number of iterations; every theorem below supplies enough fuel that the
bound is never the reason the loop stops. -/
def fetchEventsLoop (env : Nat → PageResp) :
    Nat → Nat → List Int → List Int
  | 0, _, acc => acc
  | fuel + 1, page, acc =>
    match env page with
    | .err => acc
    | .ok d lp =>
      if page ≥ lp then acc ++ d
      else fetchEventsLoop env fuel (page + 1) (acc ++ d)

/-- Shallow embedding of `get_team_events(team_id, season_id)`
(src/final-robotevents-skills-calculator.py lines 75-100). -/
def get_team_events (env : Nat → PageResp) (fuel : Nat) : List Int :=
  fetchEventsLoop env fuel 1 []

/-- The `for page in range(2, last_page + 1)` loop of `get_team_matches`:
`none` models an exception escaping the loop. -/
def fetchRangeAll (env : Nat → PageResp) :
    List Nat → List Int → Option (List Int)
  | [], acc => some acc
  | p :: ps, acc =>
    match env p with
    | .err => none
    | .ok d _ => fetchRangeAll env ps (acc ++ d)

/-- Shallow embedding of `get_team_matches(event_id, team_id)`
(src/final-robotevents-skills-calculator.py lines 117-140): page 1 is
requested, then pages 2..last_page; any raised error — including one
occurring after earlier pages were already accumulated — lands in the
`except` clause, which returns the empty list. -/
def get_team_matches (env : Nat → PageResp) : List Int :=
  match env 1 with
  | .err => []
  | .ok d lp =>
    if lp > 1 then
      match fetchRangeAll env (List.range' 2 (lp - 1)) d with
      | some ms => ms
      | none => []
    else d

/-- Outcome of one HTTP attempt inside `api_request`. -/
inductive HttpResp where
  | ok (body : Int)
  | rateLimited
  | notFound
  | httpError
  | netError
deriving DecidableEq

/-- The `for attempt in range(retry_count)` loop of `api_request`
(src/vexu-data-accessor-updated.py lines 42-76), with `rem` attempts
remaining including the current one: a 429 waits and consumes the
attempt; a 404 returns `None` at once (a valid empty result); any other
HTTP error or exception retries while attempts remain (`attempt <
retry_count - 1`, i.e. `rem > 1`) and otherwise returns `None`. -/
def apiRequestFrom (env : Nat → HttpResp) : Nat → Nat → Option Int
  | 0, _ => none
  | rem + 1, attempt =>
    match env attempt with
    | .ok b => some b
    | .rateLimited => apiRequestFrom env rem (attempt + 1)
    | .notFound => none
    | .httpError =>
      if rem = 0 then none else apiRequestFrom env rem (attempt + 1)
    | .netError =>
      if rem = 0 then none else apiRequestFrom env rem (attempt + 1)

/-- Shallow embedding of `api_request(url, params, retry_count=3)`. -/
def api_request (env : Nat → HttpResp) : Option Int :=
  apiRequestFrom env 3 0

/-- A two-page environment whose first page succeeds with data `d1` and
whose second page raises. -/
def twoPageEnv (d1 : List Int) : Nat → PageResp :=
  fun p => if p = 1 then .ok d1 2 else .err

/-- C7, counterexample.  A paginated fetch that fails partway does not
always return the items accumulated so far: with page 1 delivering [7]
(last_page 2) and page 2 raising, `get_team_matches` returns the empty
list, discarding the accumulated [7]. -/
theorem get_team_matches_discards_cex :
    get_team_matches (twoPageEnv [7]) = []
      ∧ twoPageEnv [7] 1 = PageResp.ok [7] 2 := by
  refine ⟨by decide, by decide⟩

/-- C7, amended.  On a mid-pagination failure `get_team_events` returns
the items accumulated so far, but `get_team_matches` returns the empty
list, discarding them; a request that raises on the first page (as a 404
does through `raise_for_status`) yields a valid empty result in both;
and `api_request` retries a rate-limited attempt after waiting, returning
the body once an attempt succeeds within the ceiling of 3 attempts, and
`None` when all 3 attempts are rate-limited; a 404 inside `api_request`
yields `None` (an empty result) immediately. -/
theorem paginated_fetch_partial_results :
    (∀ d1 : List Int, get_team_events (twoPageEnv d1) 2 = d1)
      ∧ (∀ d1 : List Int, get_team_matches (twoPageEnv d1) = [])
      ∧ get_team_events (fun _ => PageResp.err) 1 = []
      ∧ get_team_matches (fun _ => PageResp.err) = []
      ∧ (∀ b : Int,
          api_request (fun a => if a < 2 then .rateLimited else .ok b)
            = some b)
      ∧ api_request (fun _ => HttpResp.rateLimited) = none
      ∧ api_request (fun _ => HttpResp.notFound) = none := by
  refine ⟨fun d1 => ?_, fun d1 => ?_, rfl, rfl, fun b => rfl, rfl, rfl⟩
  · simp [get_team_events, fetchEventsLoop, twoPageEnv]
  · simp [get_team_matches, twoPageEnv, fetchRangeAll, List.range']

/-! ## Spreadsheet row rendering and parsing (src/spreadsheet-updater.py)

A rendered line is modelled as its list of whitespace-separated tokens:
`format_spreadsheet_row` joins its fields with single spaces and
`parse_existing_spreadsheet` starts with `line.strip().split()`, so on
the parsed columns 0-4 the split is the identity (a best-event name
containing spaces shifts only the later, unparsed columns).  Each token
records whether the field was rendered from a string, a Python float, or
a Python int; `repr`/`float` round-tripping of Python floats is exact, so
numeric tokens keep their exact value (here a rational). -/

inductive Tok where
  | str (s : String)
  | fnum (q : Rat)
  | inum (n : Int)
deriving DecidableEq

/-- The team fields used by `format_spreadsheet_row` in
src/spreadsheet-updater.py lines 289-296 (the averages are floats, the
best scores ints). -/
structure TeamRow where
  code : String
  qual_avg : Rat
  best_qual : Int
  elims_avg : Rat
  skill_avg : Rat
  best_event_name : String
  best_event_score : Int
deriving DecidableEq

/-- Shallow embedding of `format_spreadsheet_row(team,
include_event_data=True)` (src/spreadsheet-updater.py lines 289-296):
the token sequence of the rendered line. -/
def format_spreadsheet_row (t : TeamRow) : List Tok :=
  [ .str t.code, .fnum t.qual_avg, .inum t.best_qual, .fnum t.elims_avg,
    .fnum t.skill_avg,
    .str t.code, .inum t.best_qual, .str t.best_event_name,
    .inum t.best_event_score,
    .str t.code, .fnum t.elims_avg, .str t.code, .fnum t.elims_avg,
    .str t.code, .fnum t.skill_avg, .str t.code, .fnum t.skill_avg ]

/-- The check `re.match(r'^[A-Za-z]+', parts[0])`: the line's first
token must begin with an ASCII letter. -/
def startsWithAlpha (s : String) : Bool :=
  match s.data with
  | [] => false
  | c :: _ => c.isAlpha

/-- Python's `float(token)` on a rendered token: float tokens parse back
to their exact value, int tokens widen (`float("30") == 30.0`), and a
name or code raises `ValueError` (`none`). -/
def tokFloat : Tok → Option Rat
  | .fnum q => some q
  | .inum n => some (n : Rat)
  | .str _ => none

/-- Python's `int(token)`: only int-rendered tokens parse
(`int("20.0")` raises `ValueError`). -/
def tokInt : Tok → Option Int
  | .inum n => some n
  | _ => none

/-- The fields `parse_existing_spreadsheet` reconstructs per line. -/
structure ParsedTeam where
  code : String
  qual_avg : Rat
  best_qual : Int
  elims_avg : Rat
  skill_avg : Rat
deriving DecidableEq

/-- Shallow embedding of the per-line body of
`parse_existing_spreadsheet` (src/spreadsheet-updater.py lines 54-88):
lines with fewer than 5 tokens are skipped, lines whose first token does
not begin with a letter are skipped, then columns 1-4 are parsed as
float, int, float, float (a `ValueError` skips the line). -/
def parse_row (parts : List Tok) : Option ParsedTeam :=
  if parts.length < 5 then none
  else
    match parts.get? 0 with
    | some (.str code) =>
      if startsWithAlpha code then
        match parts.get? 1, parts.get? 2, parts.get? 3, parts.get? 4 with
        | some t1, some t2, some t3, some t4 =>
          match tokFloat t1, tokInt t2, tokFloat t3, tokFloat t4 with
          | some qa, some bq, some ea, some sa =>
            some ⟨code, qa, bq, ea, sa⟩
          | _, _, _, _ => none
        | _, _, _, _ => none
      else none
    | _ => none

/-- The claim's own example team: code "90241A", which begins with a
digit. -/
def team90241A : TeamRow :=
  { code := "90241A", qual_avg := 20, best_qual := 30, elims_avg := 0
  , skill_avg := 55, best_event_name := "Ev", best_event_score := 30 }

/-- C8, counterexample.  A rendered row for team code "90241A" is
skipped entirely by the parser (the `^[A-Za-z]+` check fails on the
leading digit), so none of its fields are reproduced. -/
theorem parse_row_digit_code_cex :
    parse_row (format_spreadsheet_row team90241A) = none := by decide

/-- C8, amended.  For every team whose code begins with an ASCII letter,
rendering the row and re-reading columns 0-4 through the parser
reproduces the team code, qualification average, best qualification
score, elimination average, and skill average exactly (hence to 2
decimal places); rows whose code begins with a digit — such as
"90241A" — are skipped by the parser and not reproduced. -/
theorem parse_format_round_trip (t : TeamRow)
    (h : startsWithAlpha t.code = true) :
    parse_row (format_spreadsheet_row t)
      = some ⟨t.code, t.qual_avg, t.best_qual, t.elims_avg, t.skill_avg⟩ := by
  simp [parse_row, format_spreadsheet_row, h, tokFloat, tokInt]

/-- C8 witness: the amended round trip at a concrete letter-led team
code. -/
theorem parse_format_round_trip_witness :
    parse_row (format_spreadsheet_row
        { code := "CPSLO", qual_avg := 20, best_qual := 30, elims_avg := 0
        , skill_avg := 55, best_event_name := "Ev", best_event_score := 30 })
      = some ⟨"CPSLO", 20, 30, 0, 55⟩ :=
  parse_format_round_trip _ (by decide)

/-! ## Report builder sorting

`generate_spreadsheet` (src/final-robotevents-skills-calculator.py lines
327-335) runs `sorted(teams.values(), key=lambda t: getattr(t, sort_by),
reverse=True)` with `sort_by` one of `qual_avg`, `skill_avg`,
`best_qual`.  Python's sort is stable and `reverse=True` preserves the
original order of key-equal elements; a stable descending sort by a key
is uniquely determined by its input, so it is realized here as a stable
insertion sort: each element is inserted after every earlier element
whose key is strictly greater, and before key-equal ones. -/

/-- The team aggregate fields the selectable sort keys read. -/
structure TeamAgg where
  code : String
  qual_avg : Rat
  best_qual : Rat
  elims_avg : Rat
  skill_avg : Rat
deriving DecidableEq

/-- Stable descending insertion: `x` goes after the elements with
strictly greater key and before the first element with key at most
`key x` (in particular before later key-equal elements). -/
def insertDesc (key : TeamAgg → Rat) (x : TeamAgg) :
    List TeamAgg → List TeamAgg
  | [] => [x]
  | y :: ys =>
    if key y > key x then y :: insertDesc key x ys else x :: y :: ys

/-- Shallow embedding of `sorted(teams.values(), key=..., reverse=True)`
in `generate_spreadsheet`. -/
def sort_teams (key : TeamAgg → Rat) : List TeamAgg → List TeamAgg
  | [] => []
  | x :: xs => insertDesc key x (sort_teams key xs)

theorem insertDesc_perm (key : TeamAgg → Rat) (x : TeamAgg)
    (l : List TeamAgg) : (insertDesc key x l).Perm (x :: l) := by
  induction l with
  | nil => exact List.Perm.refl _
  | cons y ys ih =>
    rw [insertDesc]
    split_ifs
    · exact ((ih.cons y).trans (List.Perm.swap x y ys)).symm.symm
    · exact List.Perm.refl _

theorem sort_teams_perm (key : TeamAgg → Rat) (l : List TeamAgg) :
    (sort_teams key l).Perm l := by
  induction l with
  | nil => exact List.Perm.refl _
  | cons x xs ih =>
    exact (insertDesc_perm key x (sort_teams key xs)).trans (ih.cons x)

theorem insertDesc_sorted (key : TeamAgg → Rat) (x : TeamAgg)
    (l : List TeamAgg)
    (h : l.Pairwise (fun a b => key b ≤ key a)) :
    (insertDesc key x l).Pairwise (fun a b => key b ≤ key a) := by
  induction l with
  | nil => simp [insertDesc]
  | cons y ys ih =>
    rw [insertDesc]
    rcases List.pairwise_cons.mp h with ⟨hy, hys⟩
    split_ifs with hxy
    · refine List.pairwise_cons.mpr ⟨?_, ih hys⟩
      intro z hz
      have : z = x ∨ z ∈ ys :=
        (List.Perm.mem_iff (insertDesc_perm key x ys)).mp hz
          |> fun hm => by simpa using hm
      rcases this with rfl | hzys
      · exact le_of_lt hxy
      · exact hy z hzys
    · refine List.pairwise_cons.mpr ⟨?_, h⟩
      intro z hz
      rcases List.mem_cons.mp hz with rfl | hzys
      · exact le_of_not_lt hxy
      · exact le_trans (hy z hzys) (le_of_not_lt hxy)

theorem sort_teams_sorted (key : TeamAgg → Rat) (l : List TeamAgg) :
    (sort_teams key l).Pairwise (fun a b => key b ≤ key a) := by
  induction l with
  | nil => simp [sort_teams]
  | cons x xs ih => exact insertDesc_sorted key x _ ih

theorem insertDesc_filter (key : TeamAgg → Rat) (x : TeamAgg)
    (l : List TeamAgg) (v : Rat) :
    (insertDesc key x l).filter (fun t => key t == v)
      = if key x = v then x :: l.filter (fun t => key t == v)
        else l.filter (fun t => key t == v) := by
  induction l with
  | nil =>
    by_cases hx : key x = v <;> simp [insertDesc, List.filter_cons, hx]
  | cons y ys ih =>
    by_cases hxy : key y > key x
    · rw [insertDesc, if_pos hxy]
      by_cases hx : key x = v
      · have hyv : ¬key y = v := by
          intro hyv
          rw [hx] at hxy
          rw [hyv] at hxy
          exact lt_irrefl v hxy
        simp [List.filter_cons, hx, hyv, ih]
      · by_cases hyv : key y = v <;>
          simp [List.filter_cons, hx, hyv, ih]
    · rw [insertDesc, if_neg hxy]
      by_cases hx : key x = v <;> simp [List.filter_cons, hx]

theorem sort_teams_filter (key : TeamAgg → Rat) (l : List TeamAgg)
    (v : Rat) :
    (sort_teams key l).filter (fun t => key t == v)
      = l.filter (fun t => key t == v) := by
  induction l with
  | nil => rfl
  | cons x xs ih =>
    rw [sort_teams, insertDesc_filter]
    by_cases hx : key x = v <;> simp [List.filter_cons, hx, ih]

/-- The full contract of the report builder's sort for one key: the
output is descending in that key alone, is a permutation of the input,
and restricted to any key value equals the input so restricted — i.e.
key-equal teams keep their relative input order (stability). -/
def SortSpec (key : TeamAgg → Rat) : Prop :=
  ∀ l : List TeamAgg,
    (sort_teams key l).Pairwise (fun a b => key b ≤ key a)
    ∧ (sort_teams key l).Perm l
    ∧ ∀ v : Rat,
        (sort_teams key l).filter (fun t => key t == v)
          = l.filter (fun t => key t == v)

theorem sortSpec_all (key : TeamAgg → Rat) : SortSpec key :=
  fun l => ⟨sort_teams_sorted key l, sort_teams_perm key l,
    sort_teams_filter key l⟩

/-- C9.  For each selectable sort key — qualification average, skill
average, best qualification score — the report builder emits the teams
in descending order of that key alone, as a permutation of the input
collection, and any two teams with equal key values keep their relative
input order (the filter-by-key-value characterization of a stable
sort). -/
theorem generate_spreadsheet_sort_spec :
    SortSpec (fun t => t.qual_avg)
      ∧ SortSpec (fun t => t.skill_avg)
      ∧ SortSpec (fun t => t.best_qual) :=
  ⟨sortSpec_all _, sortSpec_all _, sortSpec_all _⟩

end RoboStats
